import Mathlib

/-!
Verification of the responsive column-selection and schema-inference core of
a data-table component library.

The definitions below are a shallow embedding of the TypeScript source
(`data-table-panel.component.ts`): `updateResponsiveColumns` (the spec's
`selectVisible`), `parseMinWidth`, `deriveColumnsFromData`, `capitalizeHeader`,
`guessType` and `guessFilterType`.

Modelling conventions:
- JS numbers that hold pixel widths are modelled as `Int` (the code only adds
  and compares parsed integer widths).
- A JS string is a Lean `String`; the regexes involved only use ASCII
  character classes (`[A-Z]`, `\d`), modelled by explicit character tests.
  `String.prototype.toUpperCase` on the first character is modelled by
  `Char.toUpper` (the ASCII fragment, which is what the inputs of interest
  exercise).
- Optional interface fields (`mustShow?: boolean`, `minWidth?: string`) are
  modelled so that the code's truthiness tests are preserved: `mustShow` as a
  `Bool` defaulting to `false` (`undefined` is falsy), `minWidth` as an
  `Option String` where both `none` and the empty string are falsy in
  `col.minWidth || "100px"`.
- `Array.prototype.sort` with comparator `indexA - indexB` is, per the
  ECMAScript specification, a stable sort with respect to
  `indexA ≤ indexB`; it is modelled by `List.insertionSort`, which is stable.
- A JS record (object) is modelled as an association list `List (String × JSValue)`
  whose order is `Object.keys` iteration order.
-/

/-- Projection of the source's `ColumnDefinition<T>` interface to the fields the
core logic reads (`field`, `header`, `type`, `filterable`, `filterType`,
`mustShow`, `minWidth`); the remaining fields are never inspected by the
responsive-selection or inference code. -/
structure ColumnDefinition where
  field : String
  header : String := ""
  type : Option String := none
  filterable : Option Bool := none
  filterType : Option String := none
  mustShow : Bool := false
  minWidth : Option String := none
deriving DecidableEq

/-- Characters treated as whitespace by JS `parseInt` (ASCII fragment). -/
def isJsWhitespace (c : Char) : Bool :=
  c = ' ' || c = '\t' || c = '\n' || c = '\r' || c = '\x0b' || c = '\x0c'

/-- Model of JS `parseInt(s, 10)`: skip leading whitespace, optional sign,
then the longest prefix of decimal digits; `none` models `NaN` (no digits). -/
def parseIntDec (s : String) : Option Int :=
  let cs := s.data.dropWhile isJsWhitespace
  let signAndRest : Int × List Char :=
    match cs with
    | '-' :: rest => (-1, rest)
    | '+' :: rest => (1, rest)
    | _ => (1, cs)
  let ds := signAndRest.2.takeWhile Char.isDigit
  if ds.isEmpty then none
  else some (signAndRest.1 * (ds.foldl (fun acc c => acc * 10 + (c.toNat - 48)) 0 : Nat))

/-- Embeds `parseMinWidth`: `parseInt(minWidth, 10)`, defaulting to 100 when
the result is `NaN`. -/
def parseMinWidth (minWidth : String) : Int :=
  match parseIntDec minWidth with
  | some n => n
  | none => 100

/-- The string actually passed to `parseMinWidth` by the source:
`col.minWidth || "100px"` (both a missing `minWidth` and the empty string are
falsy in JS). -/
def effMinWidthStr (col : ColumnDefinition) : String :=
  match col.minWidth with
  | none => "100px"
  | some s => if s = "" then "100px" else s

/-- Effective minimum width of a column as computed by the source:
`parseMinWidth(col.minWidth || "100px")`. -/
def effMinWidth (col : ColumnDefinition) : Int :=
  parseMinWidth (effMinWidthStr col)

/-- One iteration of the source's first `forEach` loop over `allMasterColumns`
(`updateResponsiveColumns`, pass 1): push the column and accumulate its parsed
width when `col.mustShow` is truthy. The accumulator is
(`currentVisibleColumns`, `accumulatedWidth`). -/
def pass1Step (acc : List ColumnDefinition × Int) (col : ColumnDefinition) :
    List ColumnDefinition × Int :=
  if col.mustShow then (acc.1 ++ [col], acc.2 + effMinWidth col) else acc

/-- Pass 1 of `updateResponsiveColumns`: fold `pass1Step` over the master list
starting from an empty selection and `accumulatedWidth = 0`. -/
def pass1 (master : List ColumnDefinition) : List ColumnDefinition × Int :=
  master.foldl pass1Step ([], 0)

/-- Embeds `currentVisibleColumns.find((c) => c.field === col.field)` turned
into a Boolean (the source only tests the result for truthiness). -/
def hasField (sel : List ColumnDefinition) (f : String) : Bool :=
  sel.any (fun c => c.field == f)

/-- One iteration of the source's second `forEach` loop
(`updateResponsiveColumns`, pass 2): a non-`mustShow` column not already
selected (by `field`) is pushed exactly when
`tableWidth > accumulatedWidth + colMinWidth`. -/
def pass2Step (tableWidth : Int) (acc : List ColumnDefinition × Int)
    (col : ColumnDefinition) : List ColumnDefinition × Int :=
  if col.mustShow then acc
  else if hasField acc.1 col.field then acc
  else if acc.2 + effMinWidth col < tableWidth then
    (acc.1 ++ [col], acc.2 + effMinWidth col)
  else acc

/-- Pass 2 of `updateResponsiveColumns`: fold `pass2Step` over the master list
starting from the state left by pass 1. -/
def pass2 (tableWidth : Int) (master : List ColumnDefinition)
    (init : List ColumnDefinition × Int) : List ColumnDefinition × Int :=
  master.foldl (pass2Step tableWidth) init

/-- Model of JS `Array.prototype.findIndex`: index of the first element
satisfying the predicate, `-1` when there is none. -/
def jsFindIndex (p : ColumnDefinition → Bool) : List ColumnDefinition → Int
  | [] => -1
  | c :: t =>
    if p c then 0
    else if jsFindIndex p t = -1 then -1 else jsFindIndex p t + 1

/-- Embeds `this.allMasterColumns.findIndex((masterCol) => masterCol.field === f)`
used by the final sort comparator. -/
def masterIndex (master : List ColumnDefinition) (f : String) : Int :=
  jsFindIndex (fun m => m.field == f) master

/-- The order induced by the source's sort comparator
`(a, b) => indexA - indexB`: `a` may precede `b` iff `indexA ≤ indexB`. -/
def byMasterIndex (master : List ColumnDefinition) (a b : ColumnDefinition) : Prop :=
  masterIndex master a.field ≤ masterIndex master b.field

instance (master : List ColumnDefinition) : DecidableRel (byMasterIndex master) :=
  fun a b =>
    inferInstanceAs (Decidable (masterIndex master a.field ≤ masterIndex master b.field))

instance (master : List ColumnDefinition) : IsTotal ColumnDefinition (byMasterIndex master) :=
  ⟨fun a b => Int.le_total (masterIndex master a.field) (masterIndex master b.field)⟩

instance (master : List ColumnDefinition) : IsTrans ColumnDefinition (byMasterIndex master) :=
  ⟨fun _ _ _ hab hbc => Int.le_trans hab hbc⟩

/-- Embeds `currentVisibleColumns.sort((a, b) => indexA - indexB)`: a stable
sort (guaranteed by the ECMAScript specification) by master-list position. -/
def stableSortByMaster (master sel : List ColumnDefinition) : List ColumnDefinition :=
  sel.insertionSort (byMasterIndex master)

/-- Embeds `updateResponsiveColumns`: empty master list yields an empty
selection; otherwise pass 1 (mandatory columns), pass 2 (optional columns while
width allows), then the stable re-sort into master order. `tableWidth` is the
measured `offsetWidth` of the host element. -/
def updateResponsiveColumns (master : List ColumnDefinition) (tableWidth : Int) :
    List ColumnDefinition :=
  if master.isEmpty then []
  else stableSortByMaster master (pass2 tableWidth master (pass1 master)).1

/-- The spec's name (`selectVisible(masterColumns, availableWidth)`) for the
source's `updateResponsiveColumns`. -/
def selectVisible (masterColumns : List ColumnDefinition) (availableWidth : Int) :
    List ColumnDefinition :=
  updateResponsiveColumns masterColumns availableWidth

/-- Shape of a sampled JS value, as far as the source's type guessing
observes it: `typeof value` (boolean / number / string), `instanceof Date`,
or anything else (`null`, arrays, plain objects, `undefined`, ...). JS numbers
are modelled as `Int`; `guessType` only inspects `typeof`. -/
inductive JSValue where
  | bool (b : Bool)
  | num (n : Int)
  | str (s : String)
  | dateObj
  | other
deriving DecidableEq

/-- Embeds the regex test `/^\d{4}-\d{2}-\d{2}T\d{2}:\d{2}:\d{2}/.test(value)`:
four digits, dash, two digits, dash, two digits, literal `T`, two digits,
colon, two digits, colon, two digits, at the start of the string. -/
def isIsoDateStart (s : String) : Bool :=
  match s.data with
  | a :: b :: c :: d :: '-' :: e :: f :: '-' :: g :: h :: 'T' ::
      i :: j :: ':' :: k :: l :: ':' :: m :: n :: _ =>
    a.isDigit && b.isDigit && c.isDigit && d.isDigit && e.isDigit && f.isDigit &&
    g.isDigit && h.isDigit && i.isDigit && j.isDigit && k.isDigit && l.isDigit &&
    m.isDigit && n.isDigit
  | _ => false

/-- Embeds `guessType`: booleans first, then `Date` objects or ISO-prefixed
strings, then numbers, else `"string"`. -/
def guessType (value : JSValue) : String :=
  match value with
  | .bool _ => "boolean"
  | .dateObj => "date"
  | .str s => if isIsoDateStart s then "date" else "string"
  | .num _ => "number"
  | .other => "string"

/-- Embeds `guessFilterType`: the `switch` mapping a column type to a filter
input type, with default `"text"`. -/
def guessFilterType (columnType : String) : String :=
  if columnType = "date" then "date"
  else if columnType = "number" then "numeric"
  else if columnType = "boolean" then "boolean"
  else "text"

/-- ASCII uppercase test, the character class `[A-Z]` of the source's regex. -/
def isAsciiUpper (c : Char) : Bool :=
  'A' ≤ c && c ≤ 'Z'

/-- Embeds `header.replace(/([A-Z])/g, " $1")`: a space is inserted before
every ASCII uppercase letter, including one at position 0. -/
def insertSpacesBeforeUppercase (cs : List Char) : List Char :=
  match cs with
  | [] => []
  | c :: rest =>
    (if isAsciiUpper c then [' ', c] else [c]) ++ insertSpacesBeforeUppercase rest

/-- Embeds `capitalizeHeader`: empty (falsy) input yields `""`; otherwise the
space-inserted string with its first character uppercased
(`result.charAt(0).toUpperCase() + result.slice(1)`). -/
def capitalizeHeader (header : String) : String :=
  if header = "" then ""
  else
    match insertSpacesBeforeUppercase header.data with
    | [] => ""
    | c :: rest => String.mk (c.toUpper :: rest)

/-- Embeds `deriveColumnsFromData`: with no data the derived schema is empty;
otherwise one `ColumnDefinition` per key of the first record, in key order,
with inferred header, type and filter type, `filterable` from the merged
configuration flag, and `minWidth: "100px"`. -/
def deriveColumnsFromData (data : List (List (String × JSValue)))
    (enableColumnFiltering : Bool) : List ColumnDefinition :=
  match data with
  | [] => []
  | firstItem :: _ =>
    firstItem.map (fun kv =>
      { field := kv.1
        header := capitalizeHeader kv.1
        type := some (guessType kv.2)
        filterable := some enableColumnFiltering
        filterType := some (guessFilterType (guessType kv.2))
        mustShow := false
        minWidth := some "100px" })

/-- Formalizes the claimed pass-1 accumulation rule
"`usedWidth += max(minWidth, 0)` (treat missing/invalid `minWidth` as 100)":
identical to `pass1Step` except that the parsed width is clamped at 0 before
being accumulated. Used to compare the claim against the source. -/
def claimPass1Step (acc : List ColumnDefinition × Int) (col : ColumnDefinition) :
    List ColumnDefinition × Int :=
  if col.mustShow then (acc.1 ++ [col], acc.2 + max (effMinWidth col) 0) else acc

/-- Pass 1 as the claim describes it (clamped accumulation). -/
def claimPass1 (master : List ColumnDefinition) : List ColumnDefinition × Int :=
  master.foldl claimPass1Step ([], 0)

/-- The full selection pipeline with the claim's clamped pass 1 substituted,
used to exhibit where the claimed accumulation rule diverges from the code. -/
def claimSelectVisible (master : List ColumnDefinition) (availableWidth : Int) :
    List ColumnDefinition :=
  if master.isEmpty then []
  else stableSortByMaster master (pass2 availableWidth master (claimPass1 master)).1

/-- Formalizes the claimed header transformation: "inserting a space before
every internal uppercase letter and then capitalizing the first resulting
character" — the first character never receives a space in front of it. -/
def claimHeader (key : String) : String :=
  match key.data with
  | [] => ""
  | c :: rest =>
    String.mk (c.toUpper ::
      rest.foldr (fun d acc => (if isAsciiUpper d then [' ', d] else [d]) ++ acc) [])

/-- The space-insertion of the amended header claim: a space before every
ASCII uppercase letter, the leading position included. -/
def spacedEveryUpper (key : String) : List Char :=
  key.data.foldr (fun c acc => (if isAsciiUpper c then [' ', c] else [c]) ++ acc) []

/-- The amended header transformation: insert a space before every uppercase
letter (a key starting with an uppercase letter thus yields a leading space),
then capitalize the first resulting character; the empty key yields `""`. -/
def amendedHeader (key : String) : String :=
  match spacedEveryUpper key with
  | [] => ""
  | c :: rest => String.mk (c.toUpper :: rest)

/-- Sample column: the spec's end-to-end scenario `id` column. -/
def colId : ColumnDefinition :=
  { field := "id", mustShow := true, minWidth := some "60px" }

/-- Sample column: the spec's end-to-end scenario `name` column. -/
def colName : ColumnDefinition :=
  { field := "name", mustShow := true, minWidth := some "150px" }

/-- Sample column: the spec's end-to-end scenario `email` column. -/
def colEmail : ColumnDefinition :=
  { field := "email", minWidth := some "200px" }

/-- Sample column: the spec's end-to-end scenario `phone` column. -/
def colPhone : ColumnDefinition :=
  { field := "phone", minWidth := some "150px" }

/-- Sample column: a wide optional column (`minWidth` 100). -/
def colWide : ColumnDefinition :=
  { field := "a", minWidth := some "100px" }

/-- Sample column: a narrow optional column (`minWidth` 10). -/
def colNarrow : ColumnDefinition :=
  { field := "b", minWidth := some "10px" }

/-- Sample column: a mandatory column whose `minWidth` parses to `-50`. -/
def colNegMust : ColumnDefinition :=
  { field := "neg", mustShow := true, minWidth := some "-50px" }

/-- Sample column: an optional column with `minWidth` 100 under field `b`. -/
def colB100 : ColumnDefinition :=
  { field := "b", minWidth := some "100px" }

/-- Sample columns with default minWidth (effective width 100). -/
def colX : ColumnDefinition := { field := "x" }

/-- Second sample column with default minWidth (effective width 100). -/
def colY : ColumnDefinition := { field := "y" }

/-- Sample mandatory columns sharing the field `dup` (with distinct headers),
plus a mandatory column with field `g` in between. -/
def colDupA : ColumnDefinition :=
  { field := "dup", header := "first", mustShow := true }

/-- Sample mandatory column between the two duplicated ones. -/
def colMid : ColumnDefinition :=
  { field := "g", header := "mid", mustShow := true }

/-- Second sample mandatory column sharing the field `dup`. -/
def colDupB : ColumnDefinition :=
  { field := "dup", header := "second", mustShow := true }

/-! ### Structural lemmas about the two passes -/

/-- Pass 1 starting from an arbitrary accumulator appends exactly the
`mustShow` columns and accumulates their effective widths. -/
theorem foldl_pass1Step (m : List ColumnDefinition) (sel : List ColumnDefinition) (used : Int) :
    m.foldl pass1Step (sel, used) =
      (sel ++ m.filter (·.mustShow),
        used + ((m.filter (·.mustShow)).map effMinWidth).sum) := by
  induction m generalizing sel used with
  | nil => simp
  | cons c t ih =>
    by_cases h : c.mustShow
    · simp only [List.foldl_cons, pass1Step, h, if_true]
      rw [ih]
      simp [List.filter_cons, h, add_assoc]
    · simp only [List.foldl_cons, pass1Step, h, if_false, Bool.false_eq_true]
      rw [ih]
      simp [List.filter_cons, h]

/-- Closed form of pass 1: the `mustShow` columns in master order, together
with the sum of their effective widths. -/
theorem pass1_eq (m : List ColumnDefinition) :
    pass1 m = (m.filter (·.mustShow), ((m.filter (·.mustShow)).map effMinWidth).sum) := by
  simpa using foldl_pass1Step m [] 0

/-- One step of pass 2 either leaves the accumulator unchanged or, for an
unselected non-mandatory column that strictly fits, appends it and charges its
width. -/
theorem pass2Step_eq_or (w : Int) (acc : List ColumnDefinition × Int)
    (col : ColumnDefinition) :
    pass2Step w acc col = acc ∨
      (col.mustShow = false ∧ hasField acc.1 col.field = false ∧
        acc.2 + effMinWidth col < w ∧
        pass2Step w acc col = (acc.1 ++ [col], acc.2 + effMinWidth col)) := by
  unfold pass2Step
  split
  · exact Or.inl rfl
  · split
    · exact Or.inl rfl
    · split
      · rename_i hm hf hlt
        exact Or.inr ⟨by simpa using hm, by simpa using hf, hlt, rfl⟩
      · exact Or.inl rfl

/-- Pass 2 unfolds one column at a time. -/
theorem pass2_cons (w : Int) (c : ColumnDefinition) (t : List ColumnDefinition)
    (acc : List ColumnDefinition × Int) :
    pass2 w (c :: t) acc = pass2 w t (pass2Step w acc c) := rfl

/-- The selection entering pass 2 is a subsequence of the selection leaving it:
pass 2 only ever appends at the end. -/
theorem sublist_pass2 (w : Int) (m : List ColumnDefinition) :
    ∀ acc : List ColumnDefinition × Int, acc.1.Sublist (pass2 w m acc).1 := by
  induction m with
  | nil => intro acc; exact List.Sublist.refl _
  | cons c t ih =>
    intro acc
    have hstep : acc.1.Sublist (pass2Step w acc c).1 := by
      rcases pass2Step_eq_or w acc c with h | ⟨_, _, _, h⟩
      · rw [h]
      · rw [h]; exact List.sublist_append_left _ _
    exact hstep.trans (by rw [pass2_cons]; exact ih (pass2Step w acc c))

/-- Every column selected by pass 2 was either already selected or comes from
the master list being iterated. -/
theorem mem_pass2 (w : Int) (m : List ColumnDefinition) :
    ∀ (acc : List ColumnDefinition × Int) (x : ColumnDefinition),
      x ∈ (pass2 w m acc).1 → x ∈ acc.1 ∨ x ∈ m := by
  induction m with
  | nil => intro acc x hx; exact Or.inl hx
  | cons c t ih =>
    intro acc x hx
    rw [pass2_cons] at hx
    rcases ih (pass2Step w acc c) x hx with h | h
    · rcases pass2Step_eq_or w acc c with he | ⟨_, _, _, he⟩
      · rw [he] at h; exact Or.inl h
      · rw [he] at h
        rcases List.mem_append.mp h with h | h
        · exact Or.inl h
        · simp only [List.mem_singleton] at h
          exact Or.inr (h ▸ List.mem_cons_self c t)
    · exact Or.inr (List.mem_cons_of_mem c h)

/-- Unfolding of `hasField`: no selected column carries the given field. -/
theorem hasField_eq_false {sel : List ColumnDefinition} {f : String} :
    hasField sel f = false ↔ ∀ c ∈ sel, c.field ≠ f := by
  simp [hasField, List.any_eq_false]

/-- A selected column makes `hasField` true for its own field. -/
theorem hasField_of_mem {sel : List ColumnDefinition} {col : ColumnDefinition}
    (h : col ∈ sel) : hasField sel col.field = true := by
  simp [hasField, List.any_eq_true]
  exact ⟨col, h, rfl⟩

/-- Pass 2 preserves freedom from duplicates: a column is only pushed after
the `find`-based check ensures its field is not yet selected. -/
theorem nodup_pass2 (w : Int) (m : List ColumnDefinition) :
    ∀ acc : List ColumnDefinition × Int, acc.1.Nodup → (pass2 w m acc).1.Nodup := by
  induction m with
  | nil => intro acc h; exact h
  | cons c t ih =>
    intro acc h
    rw [pass2_cons]
    refine ih (pass2Step w acc c) ?_
    rcases pass2Step_eq_or w acc c with he | ⟨_, hf, _, he⟩
    · rw [he]; exact h
    · rw [he]
      refine List.nodup_append.mpr ⟨h, List.nodup_singleton c, ?_⟩
      intro x hx hx1
      simp only [List.mem_singleton] at hx1
      subst hx1
      exact (hasField_eq_false.mp hf x hx) rfl

/-- When every iterated column is mandatory, pass 2 changes nothing. -/
theorem pass2_eq_of_all_mustShow (w : Int) :
    ∀ m : List ColumnDefinition, (∀ c ∈ m, c.mustShow = true) →
      ∀ acc : List ColumnDefinition × Int, pass2 w m acc = acc := by
  intro m
  induction m with
  | nil => intro _ acc; rfl
  | cons c t ih =>
    intro h acc
    rw [pass2_cons]
    have hc : c.mustShow = true := h c (List.mem_cons_self c t)
    have hstep : pass2Step w acc c = acc := by
      unfold pass2Step; rw [if_pos hc]
    rw [hstep]
    exact ih (fun x hx => h x (List.mem_cons_of_mem c hx)) acc

/-- With a non-positive width, non-negative candidate widths and a
non-negative accumulated width, pass 2 adds nothing. -/
theorem pass2_eq_of_nonpos (w : Int) (hw : w ≤ 0) :
    ∀ m : List ColumnDefinition, (∀ c ∈ m, 0 ≤ effMinWidth c) →
      ∀ acc : List ColumnDefinition × Int, 0 ≤ acc.2 → pass2 w m acc = acc := by
  intro m
  induction m with
  | nil => intro _ acc _; rfl
  | cons c t ih =>
    intro hmw acc hacc
    rw [pass2_cons]
    have hc : 0 ≤ effMinWidth c := hmw c (List.mem_cons_self c t)
    have hstep : pass2Step w acc c = acc := by
      unfold pass2Step
      split
      · rfl
      · split
        · rfl
        · rw [if_neg (by omega)]
    rw [hstep]
    exact ih (fun x hx => hmw x (List.mem_cons_of_mem c hx)) acc hacc

/-! ### Lemmas about the master-index comparator and the final sort -/

/-- Unfolding of `masterIndex` over a cons cell. -/
theorem masterIndex_cons (c : ColumnDefinition) (t : List ColumnDefinition) (f : String) :
    masterIndex (c :: t) f =
      if c.field == f then 0
      else if masterIndex t f = -1 then -1 else masterIndex t f + 1 := rfl

/-- A column's own field is found at a non-negative index. -/
theorem masterIndex_nonneg_of_mem {m : List ColumnDefinition} {x : ColumnDefinition}
    (hx : x ∈ m) : 0 ≤ masterIndex m x.field := by
  induction m with
  | nil => cases hx
  | cons c t ih =>
    rw [masterIndex_cons]
    by_cases hc : c.field == x.field
    · rw [if_pos hc]
    · rw [if_neg hc]
      rcases List.mem_cons.mp hx with h | h
      · subst h; simp at hc
      · have := ih h
        rw [if_neg (by omega)]
        omega

/-- The head of the master list indexes at 0. -/
theorem masterIndex_head (c : ColumnDefinition) (t : List ColumnDefinition) :
    masterIndex (c :: t) c.field = 0 := by
  rw [masterIndex_cons, if_pos (by simp)]

/-- For a field of a tail element distinct from the head's field, consing the
head shifts the index up by one. -/
theorem masterIndex_cons_of_mem {c : ColumnDefinition} {t : List ColumnDefinition}
    {b : ColumnDefinition} (hb : b ∈ t) (hne : c.field ≠ b.field) :
    masterIndex (c :: t) b.field = masterIndex t b.field + 1 := by
  have h0 : 0 ≤ masterIndex t b.field := masterIndex_nonneg_of_mem hb
  rw [masterIndex_cons, if_neg (by simpa using hne), if_neg (by omega)]

/-- With pairwise-distinct fields, the master list is strictly increasing
under its own master-index key. -/
theorem pairwise_lt_masterIndex {m : List ColumnDefinition}
    (hu : m.Pairwise (fun a b => a.field ≠ b.field)) :
    m.Pairwise (fun a b => masterIndex m a.field < masterIndex m b.field) := by
  induction m with
  | nil => exact List.Pairwise.nil
  | cons c t ih =>
    rcases List.pairwise_cons.mp hu with ⟨hc, ht⟩
    refine List.pairwise_cons.mpr ⟨?_, ?_⟩
    · intro b hb
      rw [masterIndex_head, masterIndex_cons_of_mem hb (hc b hb)]
      have := masterIndex_nonneg_of_mem hb
      omega
    · refine (ih ht).imp_of_mem ?_
      intro a b ha hb hlt
      rw [masterIndex_cons_of_mem ha (hc a ha), masterIndex_cons_of_mem hb (hc b hb)]
      omega

/-- With pairwise-distinct fields, the master list is sorted under the
comparator order used by the final sort. -/
theorem sorted_byMasterIndex_self {m : List ColumnDefinition}
    (hu : m.Pairwise (fun a b => a.field ≠ b.field)) :
    m.Sorted (byMasterIndex m) :=
  (pairwise_lt_masterIndex hu).imp (fun h => Int.le_of_lt h)

/-- With pairwise-distinct fields, equal master indices identify columns of
the master list. -/
theorem masterIndex_injOn {m : List ColumnDefinition}
    (hu : m.Pairwise (fun a b => a.field ≠ b.field)) :
    ∀ a ∈ m, ∀ b ∈ m, masterIndex m a.field = masterIndex m b.field → a = b := by
  induction m with
  | nil => intro a ha; cases ha
  | cons c t ih =>
    rcases List.pairwise_cons.mp hu with ⟨hc, ht⟩
    intro a ha b hb heq
    rcases List.mem_cons.mp ha with ha' | ha' <;> rcases List.mem_cons.mp hb with hb' | hb'
    · exact ha'.trans hb'.symm
    · subst ha'
      rw [masterIndex_head, masterIndex_cons_of_mem hb' (hc b hb')] at heq
      have := masterIndex_nonneg_of_mem hb'
      omega
    · subst hb'
      rw [masterIndex_head, masterIndex_cons_of_mem ha' (hc a ha')] at heq
      have := masterIndex_nonneg_of_mem ha'
      omega
    · rw [masterIndex_cons_of_mem ha' (hc a ha'),
        masterIndex_cons_of_mem hb' (hc b hb')] at heq
      exact ih ht a ha' b hb' (by omega)

/-- The branch structure of `updateResponsiveColumns` collapses: for an empty
master list both sides are empty, so the function is the sort applied to the
result of the two passes. -/
theorem selectVisible_eq (m : List ColumnDefinition) (w : Int) :
    selectVisible m w = stableSortByMaster m (pass2 w m (pass1 m)).1 := by
  cases m with
  | nil => rfl
  | cons c t => rfl

/-- The displayed selection is a permutation of the list collected by the two
passes (the final sort only reorders). -/
theorem perm_selectVisible (m : List ColumnDefinition) (w : Int) :
    (selectVisible m w).Perm (pass2 w m (pass1 m)).1 := by
  rw [selectVisible_eq]
  exact List.perm_insertionSort _ _

/-- The displayed selection is sorted under the master-index comparator. -/
theorem sorted_selectVisible (m : List ColumnDefinition) (w : Int) :
    (selectVisible m w).Sorted (byMasterIndex m) := by
  rw [selectVisible_eq]
  exact List.sorted_insertionSort _ _

/-! ### Helpers for monotonicity, mandatory inclusion, and duplicate handling -/

/-- In a master list with pairwise-distinct fields, no non-mandatory column's
field occurs among the mandatory columns collected by pass 1. -/
theorem hasField_pass1_false {m : List ColumnDefinition} {col : ColumnDefinition}
    (hu : m.Pairwise (fun a b => a.field ≠ b.field)) (hcol : col ∈ m)
    (hm : col.mustShow = false) : hasField (pass1 m).1 col.field = false := by
  rw [pass1_eq]
  refine hasField_eq_false.mpr ?_
  intro y hy
  rcases List.mem_filter.mp hy with ⟨hym, hymust⟩
  have hne : y ≠ col := by
    intro he; rw [he, hm] at hymust; cases hymust
  have hsymm : Symmetric (fun a b : ColumnDefinition => a.field ≠ b.field) :=
    fun _ _ h he => h he.symm
  exact hu.forall hsymm hym hcol hne

/-- Uniform-width monotonicity of pass 2: iterating the same remaining
columns, all of effective width `c` and with pairwise-distinct fields, from a
smaller-selection state whose remaining slack is no larger (or which can no
longer accept any column), every column selected at width `w1` is selected at
width `w2`. -/
theorem pass2_mono_aux (c w1 w2 : Int) :
    ∀ (rem : List ColumnDefinition) (a1 a2 : List ColumnDefinition × Int),
      (∀ col ∈ rem, effMinWidth col = c) →
      rem.Pairwise (fun a b => a.field ≠ b.field) →
      (∀ col ∈ rem, col.mustShow = false → hasField a1.1 col.field = false) →
      (∀ col ∈ rem, col.mustShow = false → hasField a2.1 col.field = false) →
      (∀ x ∈ a1.1, x ∈ a2.1) →
      (w1 - a1.2 ≤ w2 - a2.2 ∨ ¬a1.2 + c < w1) →
      ∀ x ∈ (pass2 w1 rem a1).1, x ∈ (pass2 w2 rem a2).1 := by
  intro rem
  induction rem with
  | nil => intro a1 a2 _ _ _ _ hsub _ x hx; exact hsub x hx
  | cons col t ih =>
    intro a1 a2 hwidth hu hf1 hf2 hsub hslack x hx
    rcases List.pairwise_cons.mp hu with ⟨hcol, ht⟩
    have hwt : ∀ c' ∈ t, effMinWidth c' = c :=
      fun c' h => hwidth c' (List.mem_cons_of_mem _ h)
    have hcc : effMinWidth col = c := hwidth col (List.mem_cons_self _ _)
    rw [pass2_cons] at hx ⊢
    by_cases hm : col.mustShow = true
    · have h1 : pass2Step w1 a1 col = a1 := by unfold pass2Step; rw [if_pos hm]
      have h2 : pass2Step w2 a2 col = a2 := by unfold pass2Step; rw [if_pos hm]
      rw [h1] at hx; rw [h2]
      exact ih a1 a2 hwt ht
        (fun c' h hc' => hf1 c' (List.mem_cons_of_mem _ h) hc')
        (fun c' h hc' => hf2 c' (List.mem_cons_of_mem _ h) hc')
        hsub hslack x hx
    · have hm' : col.mustShow = false := by
        cases hms : col.mustShow
        · rfl
        · exact absurd hms hm
      have hhf1 : hasField a1.1 col.field = false :=
        hf1 col (List.mem_cons_self _ _) hm'
      have hhf2 : hasField a2.1 col.field = false :=
        hf2 col (List.mem_cons_self _ _) hm'
      -- a freshly appended `col` cannot collide with fields remaining in `t`
      have hfresh : ∀ (a : List ColumnDefinition × Int),
          (∀ c' ∈ t, c'.mustShow = false → hasField a.1 c'.field = false) →
          ∀ c' ∈ t, c'.mustShow = false →
            hasField (a.1 ++ [col]) c'.field = false := by
        intro a ha c' h hc'
        refine hasField_eq_false.mpr ?_
        intro y hy
        rcases List.mem_append.mp hy with hy | hy
        · exact hasField_eq_false.mp (ha c' h hc') y hy
        · simp only [List.mem_singleton] at hy
          subst hy
          exact hcol c' h
      by_cases h1 : a1.2 + effMinWidth col < w1
      · -- the narrow run includes `col`; the slack hypothesis forces the
        -- wide run to include it as well
        have hsl : w1 - a1.2 ≤ w2 - a2.2 := by
          rcases hslack with h | h
          · exact h
          · rw [hcc] at h1; exact absurd h1 h
        have h2 : a2.2 + effMinWidth col < w2 := by rw [hcc]; rw [hcc] at h1; omega
        have e1 : pass2Step w1 a1 col = (a1.1 ++ [col], a1.2 + effMinWidth col) := by
          unfold pass2Step
          rw [if_neg (by simp [hm']), if_neg (by simp [hhf1]), if_pos h1]
        have e2 : pass2Step w2 a2 col = (a2.1 ++ [col], a2.2 + effMinWidth col) := by
          unfold pass2Step
          rw [if_neg (by simp [hm']), if_neg (by simp [hhf2]), if_pos h2]
        rw [e1] at hx; rw [e2]
        refine ih _ _ hwt ht
          (fun c' h hc' => hfresh _ (fun d hd hdm => hf1 d (List.mem_cons_of_mem _ hd) hdm) c' h hc')
          (fun c' h hc' => hfresh _ (fun d hd hdm => hf2 d (List.mem_cons_of_mem _ hd) hdm) c' h hc')
          ?_ (Or.inl (by simp only [hcc]; omega)) x hx
        · intro y hy
          rcases List.mem_append.mp hy with hy | hy
          · exact List.mem_append_left _ (hsub y hy)
          · exact List.mem_append_right _ hy
      · -- the narrow run rejects `col` (and will reject every later column)
        have e1 : pass2Step w1 a1 col = a1 := by
          unfold pass2Step
          rw [if_neg (by simp [hm']), if_neg (by simp [hhf1]), if_neg h1]
        rw [e1] at hx
        by_cases h2 : a2.2 + effMinWidth col < w2
        · have e2 : pass2Step w2 a2 col = (a2.1 ++ [col], a2.2 + effMinWidth col) := by
            unfold pass2Step
            rw [if_neg (by simp [hm']), if_neg (by simp [hhf2]), if_pos h2]
          rw [e2]
          refine ih _ _ hwt ht
            (fun c' h hc' => hf1 c' (List.mem_cons_of_mem _ h) hc')
            (fun c' h hc' => hfresh _ (fun d hd hdm => hf2 d (List.mem_cons_of_mem _ hd) hdm) c' h hc')
            (fun y hy => List.mem_append_left _ (hsub y hy))
            (Or.inr (by rw [hcc] at h1; exact h1)) x hx
        · have e2 : pass2Step w2 a2 col = a2 := by
            unfold pass2Step
            rw [if_neg (by simp [hm']), if_neg (by simp [hhf2]), if_neg h2]
          rw [e2]
          exact ih a1 a2 hwt ht
            (fun c' h hc' => hf1 c' (List.mem_cons_of_mem _ h) hc')
            (fun c' h hc' => hf2 c' (List.mem_cons_of_mem _ h) hc')
            hsub (Or.inr (by rw [hcc] at h1; exact h1)) x hx

/-- Any list of columns that all carry `mustShow = true` satisfies the
no-duplicate-fields-unless-both-mandatory relation pairwise. -/
theorem pairwise_mustShow_of_forall {l : List ColumnDefinition}
    (h : ∀ x ∈ l, x.mustShow = true) :
    l.Pairwise (fun a b => a.field = b.field → a.mustShow = true ∧ b.mustShow = true) := by
  induction l with
  | nil => exact List.Pairwise.nil
  | cons c t ih =>
    refine List.pairwise_cons.mpr ⟨?_, ih (fun x hx => h x (List.mem_cons_of_mem _ hx))⟩
    intro b hb _
    exact ⟨h c (List.mem_cons_self _ _), h b (List.mem_cons_of_mem _ hb)⟩

/-- Pass 2 preserves the invariant that two selected columns share a field
only when both are mandatory: a column is only pushed after the field check. -/
theorem pairwise_pass2 (w : Int) (m : List ColumnDefinition) :
    ∀ acc : List ColumnDefinition × Int,
      acc.1.Pairwise (fun a b => a.field = b.field → a.mustShow = true ∧ b.mustShow = true) →
      (pass2 w m acc).1.Pairwise
        (fun a b => a.field = b.field → a.mustShow = true ∧ b.mustShow = true) := by
  induction m with
  | nil => intro acc h; exact h
  | cons c t ih =>
    intro acc h
    rw [pass2_cons]
    refine ih (pass2Step w acc c) ?_
    rcases pass2Step_eq_or w acc c with he | ⟨_, hf, _, he⟩
    · rw [he]; exact h
    · rw [he]
      refine List.pairwise_append.mpr ⟨h, List.pairwise_singleton _ _, ?_⟩
      intro a ha b hb
      simp only [List.mem_singleton] at hb
      subst hb
      intro hfield
      exact absurd hfield (hasField_eq_false.mp hf a ha)

/-! ### Claim theorems -/

/-- C1 (counterexample): greedy monotonicity fails on the code. With master
columns `[a (minWidth 100), b (minWidth 10)]`, widening from 50 to 105 removes
column `b`: at width 50 only `b` fits, at 105 column `a` claims the space
first and `b` no longer fits. -/
theorem C1_counterexample :
    (50 : Int) ≤ 105 ∧ colNarrow ∈ selectVisible [colWide, colNarrow] 50 ∧
      colNarrow ∉ selectVisible [colWide, colNarrow] 105 := by decide

/-- C1 (amended): monotonicity does hold when the master columns have
pairwise-distinct fields and all share one effective minimum width; then
increasing `availableWidth` never removes a column from the result. -/
theorem C1_amended_monotonicity (m : List ColumnDefinition) (c w1 w2 : Int)
    (hu : m.Pairwise (fun a b => a.field ≠ b.field))
    (hc : ∀ col ∈ m, effMinWidth col = c) (hw : w1 ≤ w2) :
    ∀ x ∈ selectVisible m w1, x ∈ selectVisible m w2 := by
  intro x hx
  have hx' : x ∈ (pass2 w1 m (pass1 m)).1 := (perm_selectVisible m w1).mem_iff.mp hx
  have hmem : x ∈ (pass2 w2 m (pass1 m)).1 := by
    refine pass2_mono_aux c w1 w2 m (pass1 m) (pass1 m) hc hu ?_ ?_
      (fun y hy => hy) (Or.inl (by omega)) x hx'
    · intro col hcol hcm; exact hasField_pass1_false hu hcol hcm
    · intro col hcol hcm; exact hasField_pass1_false hu hcol hcm
  exact (perm_selectVisible m w2).mem_iff.mpr hmem

/-- Witness for the amended C1 at a concrete instance: two default-width
columns, widths 150 and 300. -/
theorem C1_amended_monotonicity_witness :
    (150 : Int) ≤ 300 ∧ colX ∈ selectVisible [colX, colY] 150 ∧
      colX ∈ selectVisible [colX, colY] 300 :=
  ⟨by decide, by decide,
    C1_amended_monotonicity [colX, colY] 100 150 300 (by decide) (by decide)
      (by decide) colX (by decide)⟩

/-- C2: in pass 2, an unselected non-mandatory column is included iff
`availableWidth > usedWidth + minWidth` (strictly), in which case its
`minWidth` is charged to `usedWidth`; exact equality excludes it; a missing or
unparsable `minWidth` counts as 100. -/
theorem C2_pass2_step (w used : Int) (sel : List ColumnDefinition)
    (col : ColumnDefinition) (hm : col.mustShow = false)
    (hf : hasField sel col.field = false) :
    (pass2Step w (sel, used) col =
        if used + effMinWidth col < w then (sel ++ [col], used + effMinWidth col)
        else (sel, used)) ∧
      (col ∉ sel → (col ∈ (pass2Step w (sel, used) col).1 ↔ used + effMinWidth col < w)) ∧
      (w = used + effMinWidth col → pass2Step w (sel, used) col = (sel, used)) ∧
      (∀ c : ColumnDefinition, c.minWidth = none → effMinWidth c = 100) ∧
      (∀ (c : ColumnDefinition) (s : String), c.minWidth = some s →
        parseIntDec s = none → effMinWidth c = 100) := by
  have hstep : pass2Step w (sel, used) col =
      if used + effMinWidth col < w then (sel ++ [col], used + effMinWidth col)
      else (sel, used) := by
    unfold pass2Step
    rw [if_neg (by simp [hm]), if_neg (by simp [hf])]
  refine ⟨hstep, ?_, ?_, ?_, ?_⟩
  · intro hnot
    rw [hstep]
    by_cases h : used + effMinWidth col < w
    · rw [if_pos h]
      simp [h]
    · rw [if_neg h]
      exact ⟨fun hc => absurd hc hnot, fun hlt => absurd hlt h⟩
  · intro heq
    rw [hstep, if_neg (by omega)]
  · intro c hc
    unfold effMinWidth effMinWidthStr
    rw [hc]
    decide
  · intro c s hcs hparse
    unfold effMinWidth effMinWidthStr
    rw [hcs]
    show parseMinWidth (if s = "" then "100px" else s) = 100
    by_cases hs : s = ""
    · rw [if_pos hs]; decide
    · rw [if_neg hs]
      unfold parseMinWidth
      rw [hparse]

/-- Witness for C2 at the boundary: `colEmail` (effective width 200) against
remaining width exactly 200 is excluded. -/
theorem C2_pass2_step_witness :
    colEmail.mustShow = false ∧ hasField [] colEmail.field = false ∧
      (200 : Int) = 0 + effMinWidth colEmail ∧
      pass2Step 200 ([], 0) colEmail = ([], 0) :=
  ⟨rfl, rfl, by decide,
    (C2_pass2_step 200 0 [] colEmail rfl rfl).2.2.1 (by decide)⟩

/-- C3 (counterexample): with duplicate fields the all-mandatory identity
fails. For `[dup, g, dup]`, all `mustShow`, the final sort keys both `dup`
columns by the first occurrence (index 0), so the stable sort returns
`[dupA, dupB, g]`, not the master order. -/
theorem C3_counterexample :
    (∀ col ∈ [colDupA, colMid, colDupB], col.mustShow = true) ∧
      selectVisible [colDupA, colMid, colDupB] 0 ≠ [colDupA, colMid, colDupB] := by
  decide

/-- C3 (amended): for master lists with pairwise-distinct fields (the data
model's precondition) in which every column is mandatory, the selection equals
the master list for every width, including zero and negative widths. -/
theorem C3_amended (m : List ColumnDefinition)
    (hu : m.Pairwise (fun a b => a.field ≠ b.field))
    (hall : ∀ col ∈ m, col.mustShow = true) (w : Int) :
    selectVisible m w = m := by
  rw [selectVisible_eq]
  have hfil : m.filter (·.mustShow) = m :=
    List.filter_eq_self.mpr (fun a ha => hall a ha)
  have hsel : (pass2 w m (pass1 m)).1 = m := by
    rw [pass2_eq_of_all_mustShow w m hall, pass1_eq]
    exact hfil
  rw [hsel]
  exact List.Sorted.insertionSort_eq (sorted_byMasterIndex_self hu)

/-- Witness for the amended C3: two distinct mandatory columns at width -5. -/
theorem C3_amended_witness :
    ([colId, colName].Pairwise (fun a b => a.field ≠ b.field)) ∧
      (∀ col ∈ [colId, colName], col.mustShow = true) ∧
      selectVisible [colId, colName] (-5) = [colId, colName] :=
  ⟨by decide, by decide, C3_amended _ (by decide) (by decide) (-5)⟩

/-- C4: with pairwise-distinct fields (the data model's precondition), the
selection is a subsequence of the master list, and equals the master list
filtered to the selected subset — the final sort restores master order. -/
theorem C4_order_preservation (m : List ColumnDefinition) (w : Int)
    (hu : m.Pairwise (fun a b => a.field ≠ b.field)) :
    (selectVisible m w).Sublist m ∧
      selectVisible m w = m.filter (fun c => decide (c ∈ selectVisible m w)) := by
  have hperm : (selectVisible m w).Perm (pass2 w m (pass1 m)).1 :=
    perm_selectVisible m w
  have hm_nodup : m.Nodup :=
    hu.imp (fun h he => h (congrArg ColumnDefinition.field he))
  have hp1_nodup : (pass1 m).1.Nodup := by
    rw [pass1_eq]
    exact (List.filter_sublist m).nodup hm_nodup
  have hsel_nodup : (pass2 w m (pass1 m)).1.Nodup :=
    nodup_pass2 w m _ hp1_nodup
  have hsel_sub : ∀ x ∈ (pass2 w m (pass1 m)).1, x ∈ m := by
    intro x hx
    rcases mem_pass2 w m _ x hx with h | h
    · rw [pass1_eq] at h
      exact (List.mem_filter.mp h).1
    · exact h
  have hout_nodup : (selectVisible m w).Nodup := hperm.nodup_iff.mpr hsel_nodup
  have hfilt_nodup :
      (m.filter (fun c => decide (c ∈ (pass2 w m (pass1 m)).1))).Nodup :=
    (List.filter_sublist m).nodup hm_nodup
  have hmem_iff : ∀ a, a ∈ selectVisible m w ↔
      a ∈ m.filter (fun c => decide (c ∈ (pass2 w m (pass1 m)).1)) := by
    intro a
    rw [hperm.mem_iff, List.mem_filter]
    constructor
    · intro ha
      exact ⟨hsel_sub a ha, by simpa using ha⟩
    · intro ha
      simpa using ha.2
  have hperm2 : (selectVisible m w).Perm
      (m.filter (fun c => decide (c ∈ (pass2 w m (pass1 m)).1))) :=
    (List.perm_ext_iff_of_nodup hout_nodup hfilt_nodup).mpr hmem_iff
  have hlt := pairwise_lt_masterIndex hu
  have hsorted_filt :
      (m.filter (fun c => decide (c ∈ (pass2 w m (pass1 m)).1))).Sorted
        (byMasterIndex m) :=
    (List.Pairwise.sublist (List.filter_sublist m) hlt).imp (fun h => Int.le_of_lt h)
  have heq : selectVisible m w =
      m.filter (fun c => decide (c ∈ (pass2 w m (pass1 m)).1)) := by
    refine List.Perm.eq_of_sorted ?_ (sorted_selectVisible m w) hsorted_filt hperm2
    intro a b ha hb hab hba
    have ham : a ∈ m := hsel_sub a (hperm.mem_iff.mp ha)
    have hbm : b ∈ m := (List.mem_filter.mp hb).1
    exact masterIndex_injOn hu a ham b hbm (Int.le_antisymm hab hba)
  constructor
  · rw [heq]
    exact List.filter_sublist m
  · conv_lhs => rw [heq]
    refine List.filter_congr ?_
    intro x _
    exact decide_eq_decide.mpr hperm.mem_iff.symm

/-- Witness for C4: the spec's end-to-end master list at width 350. -/
theorem C4_order_preservation_witness :
    ([colId, colName, colEmail, colPhone].Pairwise (fun a b => a.field ≠ b.field)) ∧
      ((selectVisible [colId, colName, colEmail, colPhone] 350).Sublist
          [colId, colName, colEmail, colPhone] ∧
        selectVisible [colId, colName, colEmail, colPhone] 350 =
          [colId, colName, colEmail, colPhone].filter
            (fun c => decide (c ∈ selectVisible [colId, colName, colEmail, colPhone] 350))) :=
  ⟨by decide, C4_order_preservation [colId, colName, colEmail, colPhone] 350 (by decide)⟩

/-- C5 (counterexample): pass 1 does not accumulate `max(minWidth, 0)`. With a
mandatory column whose `minWidth` parses to -50, the code's `usedWidth` is
-50, letting a 100-wide optional column into a 60-wide container, while the
claimed clamped accumulation would exclude it. -/
theorem C5_counterexample :
    selectVisible [colNegMust, colB100] 60 ≠
      claimSelectVisible [colNegMust, colB100] 60 := by decide

/-- C5 (amended): pass 1 includes every `mustShow` column regardless of
width, and accumulates the parsed effective `minWidth` of each included
column as-is — missing/unparsable widths count as 100, but a negative parsed
width is added unclamped. -/
theorem C5_mandatory_pass (m : List ColumnDefinition) (w : Int) :
    (∀ col ∈ m, col.mustShow = true → col ∈ selectVisible m w) ∧
      (pass1 m).1 = m.filter (·.mustShow) ∧
      (pass1 m).2 = ((m.filter (·.mustShow)).map effMinWidth).sum := by
  refine ⟨?_, ?_, ?_⟩
  · intro col hcol hmust
    have h1 : col ∈ (pass1 m).1 := by
      rw [pass1_eq]
      exact List.mem_filter.mpr ⟨hcol, hmust⟩
    have h2 : col ∈ (pass2 w m (pass1 m)).1 :=
      (sublist_pass2 w m (pass1 m)).subset h1
    exact (perm_selectVisible m w).mem_iff.mpr h2
  · rw [pass1_eq]
  · rw [pass1_eq]

/-- Witness for the amended C5: the mandatory `id` column survives width 0. -/
theorem C5_mandatory_pass_witness :
    colId ∈ [colId, colEmail] ∧ colId.mustShow = true ∧
      colId ∈ selectVisible [colId, colEmail] 0 :=
  ⟨by decide, rfl, (C5_mandatory_pass [colId, colEmail] 0).1 colId (by decide) rfl⟩

/-- The foldr space-insertion used by the claim-side definitions agrees with
the recursive embedding of the source's regex replacement. -/
theorem spacedEveryUpper_eq (cs : List Char) :
    cs.foldr (fun c acc => (if isAsciiUpper c then [' ', c] else [c]) ++ acc) [] =
      insertSpacesBeforeUppercase cs := by
  induction cs with
  | nil => rfl
  | cons c t ih => simp only [List.foldr_cons, insertSpacesBeforeUppercase, ih]

/-- C6 (counterexample): the code inserts a space before *every* uppercase
letter, not only internal ones. A key starting with an uppercase letter gets a
leading space: `capitalizeHeader "Id" = " Id"`, while the claimed
internal-only transformation yields `"Id"`. -/
theorem C6_counterexample :
    capitalizeHeader "Id" = " Id" ∧ claimHeader "Id" = "Id" ∧
      capitalizeHeader "Id" ≠ claimHeader "Id" := by decide

/-- C6 (amended): for every key, the inferred header equals the key with a
space inserted before every uppercase letter — a leading uppercase yields a
leading space — followed by capitalizing the first resulting character; the
empty key yields the empty header. -/
theorem C6_amended_header (key : String) :
    capitalizeHeader key = amendedHeader key := by
  unfold capitalizeHeader amendedHeader spacedEveryUpper
  rw [spacedEveryUpper_eq]
  by_cases hk : key = ""
  · subst hk
    rfl
  · rw [if_neg hk]

/-- Witness for the amended C6 at the spec's own example key. -/
theorem C6_amended_header_witness :
    capitalizeHeader "createdAt" = amendedHeader "createdAt" ∧
      capitalizeHeader "createdAt" = "Created At" :=
  ⟨C6_amended_header "createdAt", by decide⟩

/-- C7: the type-guessing decision table and the filter-kind mapping.
Booleans yield `"boolean"`; `Date` objects and strings starting with
`YYYY-MM-DDTHH:MM:SS` yield `"date"`; numbers yield `"number"`; everything
else yields `"string"`; `guessFilterType` maps `date→date`, `number→numeric`,
`boolean→boolean`, and everything else to `text`. -/
theorem C7_type_guessing :
    (∀ b, guessType (.bool b) = "boolean") ∧
      guessType .dateObj = "date" ∧
      (∀ s, guessType (.str s) = if isIsoDateStart s then "date" else "string") ∧
      (∀ n, guessType (.num n) = "number") ∧
      guessType .other = "string" ∧
      guessFilterType "date" = "date" ∧
      guessFilterType "number" = "numeric" ∧
      guessFilterType "boolean" = "boolean" ∧
      (∀ t, t ≠ "date" → t ≠ "number" → t ≠ "boolean" → guessFilterType t = "text") ∧
      (∀ v, guessFilterType (guessType v) =
        if guessType v = "date" then "date"
        else if guessType v = "number" then "numeric"
        else if guessType v = "boolean" then "boolean" else "text") := by
  refine ⟨fun _ => rfl, rfl, fun _ => rfl, fun _ => rfl, rfl, rfl, rfl, rfl, ?_, ?_⟩
  · intro t h1 h2 h3
    unfold guessFilterType
    rw [if_neg h1, if_neg h2, if_neg h3]
  · intro v
    rfl

/-- Witness for C7: the fallback branch of `guessFilterType` at `"custom"`. -/
theorem C7_type_guessing_witness :
    ("custom" ≠ "date" ∧ "custom" ≠ "number" ∧ "custom" ≠ "boolean") ∧
      guessFilterType "custom" = "text" :=
  ⟨⟨by decide, by decide, by decide⟩,
    C7_type_guessing.2.2.2.2.2.2.2.2.1 "custom" (by decide) (by decide) (by decide)⟩

/-- C8: graceful degradation. Missing data or an empty sample record yields an
empty schema, an empty master list yields an empty selection, and an
unparsable `minWidth` silently falls back to 100. (All embedded operations are
total Lean functions, so no input can raise.) -/
theorem C8_graceful :
    (∀ flag, deriveColumnsFromData [] flag = []) ∧
      (∀ rest flag, deriveColumnsFromData ([] :: rest) flag = []) ∧
      (∀ w, selectVisible [] w = []) ∧
      (∀ s, parseIntDec s = none → parseMinWidth s = 100) := by
  refine ⟨fun _ => rfl, fun _ _ => rfl, fun _ => rfl, ?_⟩
  intro s hs
  unfold parseMinWidth
  rw [hs]

/-- Witness for C8: `"px"` has no leading digits, so it parses to `NaN` and
the default 100 is substituted. -/
theorem C8_graceful_witness :
    parseIntDec "px" = none ∧ parseMinWidth "px" = 100 :=
  ⟨by decide, C8_graceful.2.2.2 "px" (by decide)⟩

/-- C9: with no mandatory columns, non-negative effective widths and a
non-positive available width, the selection is empty. -/
theorem C9_empty_selection (m : List ColumnDefinition) (w : Int)
    (hms : ∀ col ∈ m, col.mustShow = false)
    (hmw : ∀ col ∈ m, 0 ≤ effMinWidth col) (hw : w ≤ 0) :
    selectVisible m w = [] := by
  rw [selectVisible_eq]
  have hfil : m.filter (·.mustShow) = [] := by
    rw [List.filter_eq_nil_iff]
    intro a ha
    simp [hms a ha]
  have hp1 : pass1 m = ([], 0) := by
    rw [pass1_eq, hfil]
    rfl
  rw [hp1, pass2_eq_of_nonpos w hw m hmw ([], 0) (le_refl 0)]
  rfl

/-- Witness for C9: two optional columns at width 0 produce no selection. -/
theorem C9_empty_selection_witness :
    (∀ col ∈ [colEmail, colPhone], col.mustShow = false) ∧
      (∀ col ∈ [colEmail, colPhone], 0 ≤ effMinWidth col) ∧
      ((0 : Int) ≤ 0) ∧ selectVisible [colEmail, colPhone] 0 = [] :=
  ⟨by decide, by decide, le_refl 0,
    C9_empty_selection [colEmail, colPhone] 0 (by decide) (by decide) (le_refl 0)⟩

/-- C10: two selected columns share a field only when both are mandatory —
pass 2 skips any column whose field is already selected, so duplicates can
only enter through pass 1, which admits only `mustShow` columns. -/
theorem C10_no_duplicate_fields (m : List ColumnDefinition) (w : Int) :
    (selectVisible m w).Pairwise
      (fun a b => a.field = b.field → a.mustShow = true ∧ b.mustShow = true) := by
  have hsym : ∀ {x y : ColumnDefinition},
      (x.field = y.field → x.mustShow = true ∧ y.mustShow = true) →
      (y.field = x.field → y.mustShow = true ∧ x.mustShow = true) :=
    fun h he => ⟨(h he.symm).2, (h he.symm).1⟩
  refine (List.Perm.pairwise_iff hsym (perm_selectVisible m w)).mpr ?_
  refine pairwise_pass2 w m (pass1 m) ?_
  rw [pass1_eq]
  refine pairwise_mustShow_of_forall ?_
  intro x hx
  exact (List.mem_filter.mp hx).2

/-- Witness for C10 on a master list with a duplicated mandatory field. -/
theorem C10_no_duplicate_fields_witness :
    (selectVisible [colDupA, colX, colDupB] 300).Pairwise
      (fun a b => a.field = b.field → a.mustShow = true ∧ b.mustShow = true) :=
  C10_no_duplicate_fields [colDupA, colX, colDupB] 300

